import Mathlib

/-!
Verification of the resilient-completion core of the lecture-notes SDK:
the completeness validators (`isResponseComplete` of the three services),
the continuation loops (`generateWithCompletion` / `generateWithModel`),
the retry wrapper (`withRetry`), the request throttler (`RequestThrottler`),
the Gemini OpenAI-compatibility layer (`createChatCompletion`) and the
error classifier (`handleError`).

Conventions of the embedding:
* JavaScript strings are Lean `String`s; character-level operations
  (trim, endsWith, substring search) are carried out on `String.data`.
* The external provider is an opaque function supplied per run: the n-th
  provider call of a loop is `provider n`.
* Thrown errors are values of explicit result types (`GenResult`,
  `Except JSError`), one constructor per distinct throw site.
* Wall-clock time is a virtual `Nat` clock: `Date.now()` readings,
  `setTimeout` sleeps and operation durations advance it explicitly.
-/

namespace LectureNotesSDK

/-- Number of non-overlapping occurrences of `pat` in a character list,
scanning left to right, as a JavaScript global regex match of a literal
pattern counts them.  `skip` is the number of characters still covered by
the previous match. -/
def countSubGo (pat : List Char) : List Char → Nat → Nat
  | [], _ => 0
  | _ :: rest, skip + 1 => countSubGo pat rest skip
  | c :: rest, 0 =>
    if pat.isPrefixOf (c :: rest) then countSubGo pat rest (pat.length - 1) + 1
    else countSubGo pat rest 0

/-- Embedding of `(content.match(/pat/g) || []).length` for a literal
pattern `pat`. -/
def countMatches (pat s : String) : Nat := countSubGo pat.data s.data 0

/-- Embedding of `(content.match(/[\[{]/g) || []).length` style counting of
a character class given by the predicate `p`. -/
def countClass (p : Char → Bool) (s : String) : Nat := (s.data.filter p).length

/-- Characters counted as opening brackets by the JSON balance rule. -/
def isJsonOpen (c : Char) : Bool := c == '\x5b' || c == '\x7b'

/-- Characters counted as closing brackets by the JSON balance rule. -/
def isJsonClose (c : Char) : Bool := c == '\x5d' || c == '\x7d'

/-- Embedding of JavaScript `String.prototype.trim`: drop leading and
trailing whitespace characters. -/
def trimChars (l : List Char) : List Char :=
  ((l.dropWhile Char.isWhitespace).reverse.dropWhile Char.isWhitespace).reverse

/-- Embedding of `a.endsWith(b)` on character lists. -/
def endsWithChars (l suffix : List Char) : Bool := suffix.isSuffixOf l

/-- Embedding of `a.includes(b)` (substring containment). -/
def includesSub (s pat : String) : Bool := decide (pat.data <:+: s.data)

/-- The `responseValidation` configuration block of `ServiceConfig`
(`src/types/lecture.types.ts`).  `customIndicators` is optional in the
TypeScript type; `none` models an absent field. -/
structure ResponseValidation where
  checkLaTeXBalance : Bool
  checkCodeBlocks : Bool
  checkJsonBalance : Bool
  customIndicators : Option (List String)
deriving DecidableEq, Repr

/-- Default `responseValidation` installed by the `AIService` constructor
(`src/services/ai.service.ts`). -/
def defaultResponseValidation : ResponseValidation :=
  { checkLaTeXBalance := true
    checkCodeBlocks := true
    checkJsonBalance := true
    customIndicators := some ["...", "[continued]", "[truncated]",
      "To be continued", "Continued in next part"] }

/-- Embedding of `validation.customIndicators?.some(indicator =>
content.trim().endsWith(indicator))`: an absent indicator list checks
nothing. -/
def indicatorHit (inds : Option (List String)) (content : String) : Bool :=
  match inds with
  | none => false
  | some l => l.any (fun ind => endsWithChars (trimChars content.data) ind.data)

/-- Embedding of `OpenAIService.isResponseComplete`
(`src/services/openai.service.ts`): truncation indicators, LaTeX
begin/end balance, code-fence parity and JSON bracket balance. -/
def OpenAIService.isResponseComplete (v : ResponseValidation) (content : String) : Bool :=
  if indicatorHit v.customIndicators content then false
  else if v.checkLaTeXBalance &&
      (countMatches "\\begin\x7b" content != countMatches "\\end\x7b" content) then false
  else if v.checkCodeBlocks && (countMatches "```" content % 2 != 0) then false
  else if v.checkJsonBalance &&
      (countClass isJsonOpen content != countClass isJsonClose content) then false
  else true

/-- Embedding of `GeminiService.isResponseComplete`
(`src/services/gemini.service.ts`): truncation indicators, LaTeX balance
and code-fence parity; this implementation has no JSON bracket rule. -/
def GeminiService.isResponseComplete (v : ResponseValidation) (content : String) : Bool :=
  if indicatorHit v.customIndicators content then false
  else if v.checkLaTeXBalance &&
      (countMatches "\\begin\x7b" content != countMatches "\\end\x7b" content) then false
  else if v.checkCodeBlocks && (countMatches "```" content % 2 != 0) then false
  else true

/-- Embedding of `GeminiOpenAIService.isResponseComplete`
(`src/services/ai.service.ts`): identical rule set to the Gemini service,
again without a JSON bracket rule. -/
def GeminiOpenAIService.isResponseComplete (v : ResponseValidation) (content : String) : Bool :=
  if indicatorHit v.customIndicators content then false
  else if v.checkLaTeXBalance &&
      (countMatches "\\begin\x7b" content != countMatches "\\end\x7b" content) then false
  else if v.checkCodeBlocks && (countMatches "```" content % 2 != 0) then false
  else true

/-- Error classes of `src/utils/error.utils.ts` plus `plainError` for a
bare `Error` that is none of the SDK classes.  The classes form a flat
hierarchy under `SDKError`, so the `instanceof` tests of the source
distinguish exactly these tags. -/
inductive ErrClass where
  | plainError
  | sdkError
  | openAIError
  | validationError
  | rateLimitError
  | networkError
  | fileProcessingError
deriving DecidableEq, Repr

/-- A JavaScript `Error` value: its class tag, its `message`, and — for
the constructors that accept one (`OpenAIError`, `NetworkError`,
`FileProcessingError`) — an optional `originalError` payload.  `mk`
models an error built without an original, `mkWith` one built with it. -/
inductive JSError where
  | mk (cls : ErrClass) (message : String)
  | mkWith (cls : ErrClass) (message : String) (originalError : JSError)
deriving DecidableEq, Repr

/-- Class tag of an error. -/
def JSError.cls : JSError → ErrClass
  | .mk c _ => c
  | .mkWith c _ _ => c

/-- Message of an error. -/
def JSError.message : JSError → String
  | .mk _ m => m
  | .mkWith _ m _ => m

/-- Any value reaching a `catch` block: an `Error` instance or some
non-`Error` value (the source only tests `instanceof Error`, so all
non-`Error` values behave alike). -/
inductive Thrown where
  | err (e : JSError)
  | nonError
deriving DecidableEq, Repr

/-- Embedding of `handleError` (`src/utils/error.utils.ts`).  The source
function never returns; its value here is the error it throws. -/
def handleError : Thrown → JSError
  | .err e =>
    if e.cls = .openAIError then e
    else if includesSub e.message "rate limit" then
      .mk .rateLimitError "Rate limit exceeded. Please try again later."
    else if includesSub e.message "network" || includesSub e.message "ECONNREFUSED" then
      .mkWith .networkError "Network error occurred" e
    else .mk .sdkError e.message
  | .nonError => .mk .sdkError "An unknown error occurred"

/-- The transient-error test of `withRetry`
(`error instanceof RateLimitError || error instanceof NetworkError`). -/
def isTransientError (e : JSError) : Bool :=
  e.cls == .rateLimitError || e.cls == .networkError

/-- The `RetryOptions` of `src/utils/retry.utils.ts` (delays in
milliseconds). -/
structure RetryOptions where
  maxRetries : Nat
  initialDelay : Nat
  maxDelay : Nat
  backoffFactor : Nat
deriving DecidableEq, Repr

/-- `DEFAULT_OPTIONS` of `src/utils/retry.utils.ts`. -/
def defaultRetryOptions : RetryOptions :=
  { maxRetries := 3, initialDelay := 1000, maxDelay := 10000, backoffFactor := 2 }

instance {ε α : Type} [DecidableEq ε] [DecidableEq α] : DecidableEq (Except ε α) := fun a b =>
  match a, b with
  | .ok x, .ok y => if h : x = y then .isTrue (by rw [h]) else .isFalse (by simp [h])
  | .error x, .error y => if h : x = y then .isTrue (by rw [h]) else .isFalse (by simp [h])
  | .ok _, .error _ => .isFalse (by simp)
  | .error _, .ok _ => .isFalse (by simp)

/-- Outcome of a `withRetry` run: the returned value or thrown error, how
many times the wrapped operation was invoked, and the list of backoff
sleeps performed (in order, in milliseconds). -/
structure RetryOutcome (α : Type) where
  result : Except JSError α
  invocations : Nat
  sleeps : List Nat
deriving DecidableEq, Repr

/-- Embedding of the `while (true)` loop of `withRetry`
(`src/utils/retry.utils.ts`).  `op n` is the outcome of the (n+1)-th
invocation of the wrapped operation, `attempt` the counter of failures so
far, `delay` the current backoff delay and `sleeps` the sleeps already
performed.  The loop terminates because `attempt` grows by one per
failure and the loop rethrows once `attempt >= maxRetries`. -/
def withRetryGo (opts : RetryOptions) (op : Nat → Except JSError α)
    (delay attempt : Nat) (sleeps : List Nat) : RetryOutcome α :=
  match op attempt with
  | .ok v => ⟨.ok v, attempt + 1, sleeps⟩
  | .error e =>
    if h : attempt + 1 ≥ opts.maxRetries then ⟨.error e, attempt + 1, sleeps⟩
    else if isTransientError e then
      withRetryGo opts op (min (delay * opts.backoffFactor) opts.maxDelay)
        (attempt + 1) (sleeps ++ [delay])
    else ⟨.error e, attempt + 1, sleeps⟩
termination_by opts.maxRetries - attempt
decreasing_by omega

/-- Embedding of `withRetry` (`src/utils/retry.utils.ts`). -/
def withRetry (opts : RetryOptions) (op : Nat → Except JSError α) : RetryOutcome α :=
  withRetryGo opts op opts.initialDelay 0 []

/-- Dispatch record of one throttled operation: the virtual instant the
operation was dispatched (the value written to `lastRequestTime`) and the
instant its dispatch processing completed. -/
structure DispatchRecord where
  dispatchTime : Nat
  finishTime : Nat
deriving DecidableEq, Repr

/-- Pre-dispatch wait of `RequestThrottler.executeWithThrottle`
(`src/utils/retry.utils.ts`): `now - lastRequestTime < minDelay` forces a
sleep of the missing difference. -/
def throttleWait (minDelay now last : Nat) : Nat :=
  if now - last < minDelay then minDelay - (now - last) else 0

/-- Embedding of `RequestThrottler.processQueue` over a virtual clock:
`now` is the current instant, `last` the stored `lastRequestTime`, and
`durs` the dispatch-processing durations of the queued operations in
admission (FIFO) order.  Each entry is processed to completion before the
next starts; the result is the dispatch records in processing order
together with the final `lastRequestTime`. -/
def RequestThrottler.processQueueGo (minDelay : Nat) :
    Nat → Nat → List Nat → List DispatchRecord × Nat
  | _, last, [] => ([], last)
  | now, last, d :: rest =>
    let dispatch := now + throttleWait minDelay now last
    let out := RequestThrottler.processQueueGo minDelay (dispatch + d) dispatch rest
    (⟨dispatch, dispatch + d⟩ :: out.1, out.2)

/-- `minDelay` of the singleton throttler (`1000 / requestsPerSecond`
with `requestsPerSecond = 10`). -/
def throttlerMinDelay : Nat := 1000 / 10

/-- A chat message: `role` and `content`
(`ChatCompletionMessageParam` shape used by the services). -/
structure Msg where
  role : String
  content : String
deriving DecidableEq, Repr

/-- Placeholder for `messages[0]` on an empty array (the services always
pass a non-empty list; theorems about the first message assume one). -/
def msgDefault : Msg := ⟨"", ""⟩

/-- Finish signal of a provider response: `finish_reason === 'stop'`,
`=== 'length'`, or anything else (absent or unexpected). -/
inductive FinishReason where
  | stop
  | length
  | other
deriving DecidableEq, Repr, BEq

/-- One provider response as the loop reads it: the
`choice?.message?.content` field (`none` models an absent choice, message
or content) and the finish signal. -/
structure ProviderResponse where
  content : Option String
  finish_reason : FinishReason
deriving DecidableEq, Repr

/-- Result of one continuation-loop run, one constructor per exit path:
`ok` returns the accumulated text; `errEmpty` is the
`OpenAIError(errorMessage)` thrown on an empty or missing content;
`errIncomplete` is the distinct
`Failed to generate complete response after maximum attempts` error. -/
inductive GenResult where
  | ok (content : String)
  | errEmpty
  | errIncomplete
deriving DecidableEq, Repr

/-- Record of one provider call: the message list that was sent and the
text accumulated before the call. -/
structure CallRecord where
  msgs : List Msg
  accBefore : String
deriving DecidableEq, Repr

/-- Embedding of
`content = content ? content + '\n' + newContent : newContent`. -/
def appendContent (content nc : String) : String :=
  if content = "" then nc else content ++ "\n" ++ nc

/-- Continuation message rewrite of `OpenAIService.generateWithCompletion`:
`messages = [messages[0], { role: "user", content: 'Continue from: ' + content }]`. -/
def continueMsgs (msgs : List Msg) (content : String) : List Msg :=
  [msgs.headD msgDefault, ⟨"user", "Continue from: " ++ content⟩]

/-- Post-loop check of `generateWithCompletion`: rethrow the distinct
incomplete-after-maximum-attempts error unless the accumulated content
passes `isResponseComplete`, in which case it is returned. -/
def OpenAIService.finalCheck (v : ResponseValidation) (content : String) : GenResult :=
  if OpenAIService.isResponseComplete v content then .ok content else .errIncomplete

/-- Embedding of the `while (attempts < this.config.maxAttempts)` loop of
`OpenAIService.generateWithCompletion` (`src/services/openai.service.ts`).
`provider n` is the response of the (n+1)-th provider call; `trace`
collects one `CallRecord` per call made so far, so `trace.length` is the
number of calls.  `fuel` equals `maxAttempts - attempts`, which the
source decrements exactly when `attempts++` runs. -/
def OpenAIService.generateWithCompletionGo (v : ResponseValidation)
    (provider : Nat → ProviderResponse) :
    List Msg → String → List CallRecord → Nat → GenResult × List CallRecord
  | _, content, trace, 0 => (OpenAIService.finalCheck v content, trace)
  | msgs, content, trace, fuel + 1 =>
    let resp := provider trace.length
    let trace' := trace ++ [⟨msgs, content⟩]
    match resp.content with
    | none => (.errEmpty, trace')
    | some nc =>
      if nc = "" then (.errEmpty, trace')
      else
        let content' := appendContent content nc
        if resp.finish_reason == .stop && OpenAIService.isResponseComplete v content' then
          (OpenAIService.finalCheck v content', trace')
        else if resp.finish_reason == .length then
          OpenAIService.generateWithCompletionGo v provider
            (continueMsgs msgs content') content' trace' fuel
        else if OpenAIService.isResponseComplete v content' then
          (OpenAIService.finalCheck v content', trace')
        else
          OpenAIService.generateWithCompletionGo v provider
            (continueMsgs msgs content') content' trace' fuel

/-- Embedding of `OpenAIService.generateWithCompletion`: run the loop from
the caller-supplied messages with empty accumulated content. -/
def OpenAIService.generateWithCompletion (v : ResponseValidation) (maxAttempts : Nat)
    (provider : Nat → ProviderResponse) (msgs : List Msg) : GenResult × List CallRecord :=
  OpenAIService.generateWithCompletionGo v provider msgs "" [] maxAttempts

/-- Post-loop check of `GeminiService.generateWithModel`. -/
def GeminiService.finalCheck (v : ResponseValidation) (content : String) : GenResult :=
  if GeminiService.isResponseComplete v content then .ok content else .errIncomplete

/-- Embedding of the `while (attempts < this.config.maxAttempts)` loop of
`GeminiService.generateWithModel` (`src/services/gemini.service.ts`).
`provider n` is `result.response.text()` of the (n+1)-th call; `calls`
counts the provider calls made so far. -/
def GeminiService.generateWithModelGo (v : ResponseValidation) (provider : Nat → String) :
    String → Nat → Nat → GenResult × Nat
  | content, calls, 0 => (GeminiService.finalCheck v content, calls)
  | content, calls, fuel + 1 =>
    let nc := provider calls
    let content' := appendContent content nc
    if GeminiService.isResponseComplete v content' then
      (GeminiService.finalCheck v content', calls + 1)
    else
      GeminiService.generateWithModelGo v provider content' (calls + 1) fuel

/-- Embedding of `GeminiService.generateWithModel`: result together with
the number of provider calls made. -/
def GeminiService.generateWithModel (v : ResponseValidation) (maxAttempts : Nat)
    (provider : Nat → String) : GenResult × Nat :=
  GeminiService.generateWithModelGo v provider "" 0 maxAttempts

/-- One choice of an OpenAI-format chat completion. -/
structure ChatMessage where
  role : String
  content : String
deriving DecidableEq, Repr

/-- Choice entry of an OpenAI-format chat completion response. -/
structure ChatChoice where
  message : ChatMessage
  finish_reason : String
deriving DecidableEq, Repr

/-- Usage block of an OpenAI-format chat completion response. -/
structure ChatUsage where
  prompt_tokens : Nat
  completion_tokens : Nat
  total_tokens : Nat
deriving DecidableEq, Repr

/-- OpenAI-format chat completion response. -/
structure ChatResponse where
  choices : List ChatChoice
  usage : ChatUsage
deriving DecidableEq, Repr

/-- Embedding of `GeminiOpenAIService.createChatCompletion`
(`src/services/ai.service.ts`).  `send` is the opaque Gemini chat
exchange: it receives the whole message list (history plus final
message) and yields `result.response.text()`.  The success path always
converts to OpenAI format with a single choice whose `finish_reason` is
the literal `'stop'` and zeroed usage. -/
def GeminiOpenAIService.createChatCompletion (send : List Msg → String)
    (messages : List Msg) : ChatResponse :=
  { choices := [⟨⟨"assistant", send messages⟩, "stop"⟩]
    usage := ⟨0, 0, 0⟩ }

/-- Post-loop check of `GeminiOpenAIService.generateWithModel`. -/
def GeminiOpenAIService.finalCheck (v : ResponseValidation) (content : String) : GenResult :=
  if GeminiOpenAIService.isResponseComplete v content then .ok content else .errIncomplete

/-- Embedding of the `while (attempts < this.config.maxAttempts)` loop of
`GeminiOpenAIService.generateWithModel` (`src/services/ai.service.ts`).
The message list sent on each call is rebuilt from the original `msgs`:
unchanged while `content` is empty, otherwise
`[messages[0], { role: 'user', content: 'Continue from: ' + content }]`.
Each call goes through `createChatCompletion`, whose `send` for the
(n+1)-th call is `provider n`. -/
def GeminiOpenAIService.generateWithModelGo (v : ResponseValidation)
    (provider : Nat → List Msg → String) (msgs : List Msg) :
    String → List CallRecord → Nat → GenResult × List CallRecord
  | content, trace, 0 => (GeminiOpenAIService.finalCheck v content, trace)
  | content, trace, fuel + 1 =>
    let sent := if content = "" then msgs
      else [msgs.headD msgDefault, ⟨"user", "Continue from: " ++ content⟩]
    let completion := GeminiOpenAIService.createChatCompletion (provider trace.length) sent
    let trace' := trace ++ [⟨sent, content⟩]
    let nc := (completion.choices.headD ⟨⟨"", ""⟩, ""⟩).message.content
    if nc = "" then (.errEmpty, trace')
    else
      let content' := appendContent content nc
      if (completion.choices.headD ⟨⟨"", ""⟩, ""⟩).finish_reason == "stop" &&
          GeminiOpenAIService.isResponseComplete v content' then
        (GeminiOpenAIService.finalCheck v content', trace')
      else if !(GeminiOpenAIService.isResponseComplete v content') then
        GeminiOpenAIService.generateWithModelGo v provider msgs content' trace' fuel
      else
        (GeminiOpenAIService.finalCheck v content', trace')

/-- Embedding of `GeminiOpenAIService.generateWithModel`. -/
def GeminiOpenAIService.generateWithModel (v : ResponseValidation) (maxAttempts : Nat)
    (provider : Nat → List Msg → String) (msgs : List Msg) : GenResult × List CallRecord :=
  GeminiOpenAIService.generateWithModelGo v provider msgs "" [] maxAttempts

/-- Accumulated text after `n` appends of `contents 0, …, contents (n-1)`,
newline-joined as the loops do. -/
def accumulate (contents : Nat → String) : Nat → String
  | 0 => ""
  | n + 1 => appendContent (accumulate contents n) (contents n)

/-- Transient errors are exactly the rate-limit and network classes. -/
theorem isTransientError_iff (e : JSError) :
    isTransientError e = true ↔ e.cls = .rateLimitError ∨ e.cls = .networkError := by
  cases hc : e.cls <;> simp [isTransientError, hc]

end LectureNotesSDK

namespace LectureNotesSDK

/-- C9: every successful response of the Gemini OpenAI-compatibility layer
`GeminiOpenAIService.createChatCompletion` reports `finish_reason 'stop'`,
for every input message list and every provider reply, so a caller of the
adapter never observes a provider-signalled `'length'` truncation. -/
theorem C9_createChatCompletion_finish_reason_stop (send : List Msg → String)
    (messages : List Msg) :
    ((GeminiOpenAIService.createChatCompletion send messages).choices.map
      (fun c => c.finish_reason)) = ["stop"] := rfl

/-- C10: `handleError` rethrows an `OpenAIError` unchanged; wraps any other
`Error` whose message contains `'rate limit'` as a `RateLimitError`, any
whose message contains `'network'` or `'ECONNREFUSED'` as a `NetworkError`
preserving the original error, any other `Error` as an `SDKError` with the
same message, and any non-`Error` value as
`SDKError('An unknown error occurred')`; and the rate-limit and network
classes are exactly the errors the retry wrapper treats as transient. -/
theorem C10_handleError_classification (e : JSError) :
    (e.cls = .openAIError → handleError (.err e) = e)
    ∧ (e.cls ≠ .openAIError → includesSub e.message "rate limit" = true →
        handleError (.err e) =
          .mk .rateLimitError "Rate limit exceeded. Please try again later.")
    ∧ (e.cls ≠ .openAIError → includesSub e.message "rate limit" = false →
        (includesSub e.message "network" || includesSub e.message "ECONNREFUSED") = true →
        handleError (.err e) = .mkWith .networkError "Network error occurred" e)
    ∧ (e.cls ≠ .openAIError → includesSub e.message "rate limit" = false →
        includesSub e.message "network" = false →
        includesSub e.message "ECONNREFUSED" = false →
        handleError (.err e) = .mk .sdkError e.message)
    ∧ handleError .nonError = .mk .sdkError "An unknown error occurred"
    ∧ (isTransientError e = true ↔ e.cls = .rateLimitError ∨ e.cls = .networkError) := by
  refine ⟨?_, ?_, ?_, ?_, rfl, isTransientError_iff e⟩
  · intro h1
    simp [handleError, h1]
  · intro h1 h2
    simp [handleError, h1, h2]
  · intro h1 h2 h3
    simp [handleError, h1, h2, h3]
  · intro h1 h2 h3 h4
    simp [handleError, h1, h2, h3, h4]

/-- Witness for C10: each classification branch at a concrete error. -/
theorem C10_witness :
    handleError (.err (.mk .openAIError "boom")) = .mk .openAIError "boom"
    ∧ handleError (.err (.mk .plainError "hit the rate limit")) =
        .mk .rateLimitError "Rate limit exceeded. Please try again later."
    ∧ handleError (.err (.mk .plainError "network down")) =
        .mkWith .networkError "Network error occurred" (.mk .plainError "network down")
    ∧ handleError (.err (.mk .validationError "topic is required")) =
        .mk .sdkError "topic is required"
    ∧ handleError .nonError = .mk .sdkError "An unknown error occurred" := by
  refine ⟨(C10_handleError_classification (.mk .openAIError "boom")).1 rfl,
    (C10_handleError_classification (.mk .plainError "hit the rate limit")).2.1
      (by decide) (by decide),
    (C10_handleError_classification (.mk .plainError "network down")).2.2.1
      (by decide) (by decide) (by decide),
    (C10_handleError_classification (.mk .validationError "topic is required")).2.2.2.1
      (by decide) (by decide) (by decide) (by decide),
    (C10_handleError_classification (.mk .plainError "x")).2.2.2.2.1⟩

/-- Counterexample for C4: with the default configuration
(`checkJsonBalance` enabled) the text `"\x7b"` has one opening and zero
closing brackets, yet the Gemini service validators judge it complete —
their `isResponseComplete` implementations have no bracket rule. -/
theorem C4_counterexample :
    defaultResponseValidation.checkJsonBalance = true
    ∧ countClass isJsonOpen "\x7b" ≠ countClass isJsonClose "\x7b"
    ∧ GeminiService.isResponseComplete defaultResponseValidation "\x7b" = true
    ∧ GeminiOpenAIService.isResponseComplete defaultResponseValidation "\x7b" = true := by
  refine ⟨rfl, by decide, by decide, by decide⟩

/-- C4 (amended): for every configuration with the bracket check enabled
and every text whose counts of opening `[`/`\x7b` and closing `]`/`\x7d`
differ, the OpenAI service validator judges the text incomplete; the
Gemini-based services do not implement the bracket rule. -/
theorem C4_openai_bracket_imbalance_incomplete (v : ResponseValidation) (content : String)
    (hj : v.checkJsonBalance = true)
    (hc : countClass isJsonOpen content ≠ countClass isJsonClose content) :
    OpenAIService.isResponseComplete v content = false := by
  unfold OpenAIService.isResponseComplete
  split
  · rfl
  · split
    · rfl
    · split
      · rfl
      · split
        · rfl
        · next h => exact absurd (by simp [hj, hc]) h

/-- Witness for C4: the default configuration and the unbalanced text
`"\x7b"`. -/
theorem C4_witness :
    defaultResponseValidation.checkJsonBalance = true
    ∧ countClass isJsonOpen "\x7b" ≠ countClass isJsonClose "\x7b"
    ∧ OpenAIService.isResponseComplete defaultResponseValidation "\x7b" = false :=
  ⟨rfl, by decide,
    C4_openai_bracket_imbalance_incomplete defaultResponseValidation "\x7b" rfl (by decide)⟩

/-- Helper: a `withRetryGo` run that meets transient errors from
invocation `attempt` up to invocation `attempt + n - 1` and a success at
invocation `attempt + n` (all within the retry budget) returns that
success after exactly `attempt + n + 1` invocations. -/
theorem withRetryGo_ok_after {α : Type} (opts : RetryOptions) (op : Nat → Except JSError α)
    (v : α) :
    ∀ (n delay attempt : Nat) (sleeps : List Nat),
    attempt + n < opts.maxRetries →
    (∀ i, i < n → ∃ e, op (attempt + i) = .error e ∧ isTransientError e = true) →
    op (attempt + n) = .ok v →
    (withRetryGo opts op delay attempt sleeps).result = .ok v
    ∧ (withRetryGo opts op delay attempt sleeps).invocations = attempt + n + 1 := by
  intro n
  induction n with
  | zero =>
    intro delay attempt sleeps _ _ hok
    rw [withRetryGo]
    simp only [Nat.add_zero] at hok
    rw [hok]
    exact ⟨rfl, rfl⟩
  | succ n ih =>
    intro delay attempt sleeps hlt herr hok
    obtain ⟨e, he, htr⟩ := herr 0 (Nat.succ_pos n)
    rw [withRetryGo]
    simp only [Nat.add_zero] at he
    rw [he]
    dsimp only
    have hguard : ¬ attempt + 1 ≥ opts.maxRetries := by omega
    rw [dif_neg hguard, if_pos htr]
    have herr' : ∀ i, i < n → ∃ e, op (attempt + 1 + i) = .error e ∧ isTransientError e = true := by
      intro i hi
      have := herr (i + 1) (by omega)
      simpa [Nat.add_assoc, Nat.add_comm 1 i] using this
    have hok' : op (attempt + 1 + n) = .ok v := by
      have : attempt + 1 + n = attempt + (n + 1) := by omega
      rw [this]; exact hok
    have := ih (min (delay * opts.backoffFactor) opts.maxDelay) (attempt + 1)
      (sleeps ++ [delay]) (by omega) herr' hok'
    refine ⟨this.1, ?_⟩
    rw [this.2]; omega

/-- Helper: a `withRetryGo` run that meets only transient errors
exhausts the budget and rethrows the error of the final invocation. -/
theorem withRetryGo_all_transient {α : Type} (opts : RetryOptions) (op : Nat → Except JSError α)
    (errs : Nat → JSError)
    (herr : ∀ i, op i = .error (errs i))
    (htr : ∀ i, isTransientError (errs i) = true) :
    ∀ (n delay attempt : Nat) (sleeps : List Nat),
    attempt + n + 1 = opts.maxRetries →
    (withRetryGo opts op delay attempt sleeps).result = .error (errs (attempt + n))
    ∧ (withRetryGo opts op delay attempt sleeps).invocations = attempt + n + 1 := by
  intro n
  induction n with
  | zero =>
    intro delay attempt sleeps hmax
    rw [withRetryGo, herr attempt]
    dsimp only
    have hguard : attempt + 1 ≥ opts.maxRetries := by omega
    rw [dif_pos hguard]
    exact ⟨rfl, rfl⟩
  | succ n ih =>
    intro delay attempt sleeps hmax
    rw [withRetryGo, herr attempt]
    dsimp only
    have hguard : ¬ attempt + 1 ≥ opts.maxRetries := by omega
    rw [dif_neg hguard, if_pos (htr attempt)]
    have := ih (min (delay * opts.backoffFactor) opts.maxDelay) (attempt + 1)
      (sleeps ++ [delay]) (by omega)
    have harith : attempt + 1 + n = attempt + (n + 1) := by omega
    rw [harith] at this
    exact this

/-- C5: if the operation fails with transient (rate-limit or network)
errors on the first `k < maxRetries` invocations and then succeeds,
`withRetry` returns the success after exactly `k + 1` invocations; if the
operation fails with transient errors on every invocation, `withRetry`
rethrows the last error after exactly `maxRetries` invocations in total
(counting the first). -/
theorem C5_withRetry_transient_budget {α : Type} (opts : RetryOptions)
    (op₁ op₂ : Nat → Except JSError α) (k : Nat) (v : α) (errs : Nat → JSError) :
    (k < opts.maxRetries →
      (∀ i, i < k → ∃ e, op₁ i = .error e ∧ isTransientError e = true) →
      op₁ k = .ok v →
      (withRetry opts op₁).result = .ok v ∧ (withRetry opts op₁).invocations = k + 1)
    ∧ (1 ≤ opts.maxRetries →
      (∀ i, op₂ i = .error (errs i)) →
      (∀ i, isTransientError (errs i) = true) →
      (withRetry opts op₂).result = .error (errs (opts.maxRetries - 1))
      ∧ (withRetry opts op₂).invocations = opts.maxRetries) := by
  constructor
  · intro hk herr hok
    have := withRetryGo_ok_after opts op₁ v k opts.initialDelay 0 [] (by omega)
      (by simpa using herr) (by simpa using hok)
    refine ⟨?_, ?_⟩
    · rw [withRetry]; exact this.1
    · rw [withRetry, this.2]; omega
  · intro hmax herr htr
    have := withRetryGo_all_transient opts op₂ errs herr htr (opts.maxRetries - 1)
      opts.initialDelay 0 [] (by omega)
    have harith : 0 + (opts.maxRetries - 1) = opts.maxRetries - 1 := by omega
    rw [harith] at this
    refine ⟨?_, ?_⟩
    · rw [withRetry]; exact this.1
    · rw [withRetry, this.2]; omega

/-- Witness for C5: two transient rate-limit failures then success under
the default options (`maxRetries = 3`), and a constant transient failure
exhausting the budget. -/
theorem C5_witness :
    ((2 : Nat) < defaultRetryOptions.maxRetries)
    ∧ (withRetry defaultRetryOptions
        (fun n => if n < 2 then .error (.mk .rateLimitError "rl") else .ok (42 : Nat))).result
        = .ok 42
    ∧ (withRetry defaultRetryOptions
        (fun n => if n < 2 then .error (.mk .rateLimitError "rl") else .ok (42 : Nat))).invocations
        = 3
    ∧ (withRetry defaultRetryOptions
        (fun _ => (.error (.mk .rateLimitError "rl") : Except JSError Nat))).result
        = .error (.mk .rateLimitError "rl")
    ∧ (withRetry defaultRetryOptions
        (fun _ => (.error (.mk .rateLimitError "rl") : Except JSError Nat))).invocations
        = 3 := by
  have h1 := (C5_withRetry_transient_budget defaultRetryOptions
    (fun n => if n < 2 then .error (.mk .rateLimitError "rl") else .ok (42 : Nat))
    (fun _ => .error (.mk .rateLimitError "rl")) 2 42
    (fun _ => .mk .rateLimitError "rl")).1 (by decide)
    (fun i hi => ⟨.mk .rateLimitError "rl", by simp [hi], rfl⟩) (by decide)
  have h2 := (C5_withRetry_transient_budget defaultRetryOptions
    (fun n => if n < 2 then .error (.mk .rateLimitError "rl") else .ok (42 : Nat))
    (fun _ => .error (.mk .rateLimitError "rl")) 2 42
    (fun _ => .mk .rateLimitError "rl")).2 (by decide)
    (fun _ => rfl) (fun _ => rfl)
  exact ⟨by decide, h1.1, h1.2, h2.1, h2.2⟩

/-- C6: an operation failing with an error that is not transient (neither
rate-limit nor network) is invoked exactly once, no backoff sleep is
performed, and the error propagates unchanged. -/
theorem C6_withRetry_nontransient_single_call {α : Type} (opts : RetryOptions)
    (op : Nat → Except JSError α) (e : JSError)
    (h0 : op 0 = .error e) (ht : isTransientError e = false) :
    withRetry opts op = ⟨.error e, 1, []⟩ := by
  rw [withRetry, withRetryGo, h0]
  dsimp only
  split
  · rfl
  · rw [if_neg (by simp [ht])]

/-- Witness for C6: a plain error under the default options. -/
theorem C6_witness :
    ((fun _ => (.error (.mk .plainError "boom") : Except JSError Nat)) 0
      = .error (.mk .plainError "boom"))
    ∧ isTransientError (.mk .plainError "boom") = false
    ∧ withRetry defaultRetryOptions (fun _ => (.error (.mk .plainError "boom") : Except JSError Nat))
        = ⟨.error (.mk .plainError "boom"), 1, []⟩ :=
  ⟨rfl, by decide,
    C6_withRetry_nontransient_single_call defaultRetryOptions _ _ rfl (by decide)⟩

/-- Helper: after the pre-dispatch wait, dispatch happens at the later of
`now` and `lastRequestTime + minDelay`. -/
theorem throttleWait_dispatch (minDelay now last : Nat) (h : last ≤ now) :
    now + throttleWait minDelay now last = max now (last + minDelay) := by
  unfold throttleWait
  split <;> omega

/-- Helper: head of the dispatch-record list of a non-empty queue. -/
theorem processQueueGo_head (minDelay now last d : Nat) (rest : List Nat) :
    (RequestThrottler.processQueueGo minDelay now last (d :: rest)).1.head? =
      some ⟨now + throttleWait minDelay now last, now + throttleWait minDelay now last + d⟩ :=
  rfl

/-- C7: for the request throttle, consecutive dispatch instants are at
least `minDelay` apart; dispatch (and completion of dispatch processing)
follows admission order — record `i` corresponds to the `i`-th admitted
operation, and each operation completes before the next dispatches; the
next dispatch instant is the later of the previous completion and the
previous dispatch plus `minDelay` (so slow calls add no extra throttle
delay); and the stored `lastRequestTime` after the run is the dispatch
instant of the last operation, not its completion instant. -/
theorem C7_throttler_spacing_fifo_dispatch_timestamp (minDelay : Nat) :
    ∀ (durs : List Nat) (now last : Nat),
    (RequestThrottler.processQueueGo minDelay now last durs).1.length = durs.length
    ∧ (RequestThrottler.processQueueGo minDelay now last durs).1.map
        (fun r => r.finishTime - r.dispatchTime) = durs
    ∧ List.Chain' (fun a b =>
        a.dispatchTime + minDelay ≤ b.dispatchTime
        ∧ a.finishTime ≤ b.dispatchTime
        ∧ b.dispatchTime = max a.finishTime (a.dispatchTime + minDelay))
        (RequestThrottler.processQueueGo minDelay now last durs).1
    ∧ (RequestThrottler.processQueueGo minDelay now last durs).2 =
        (((RequestThrottler.processQueueGo minDelay now last durs).1.getLast?).map
          (fun r => r.dispatchTime)).getD last := by
  intro durs
  induction durs with
  | nil =>
    intro now last
    simp [RequestThrottler.processQueueGo]
  | cons d rest ih =>
    intro now last
    obtain ⟨ih1, ih2, ih3, ih4⟩ := ih (now + throttleWait minDelay now last + d)
      (now + throttleWait minDelay now last)
    rw [RequestThrottler.processQueueGo]
    dsimp only
    refine ⟨by simp [ih1], by simp [ih2], ?_, ?_⟩
    · rw [List.chain'_cons']
      refine ⟨?_, ih3⟩
      intro b hb
      cases hrest : rest with
      | nil =>
        rw [hrest] at hb
        simp [RequestThrottler.processQueueGo] at hb
      | cons d' rest' =>
        rw [hrest, processQueueGo_head] at hb
        rw [Option.mem_def, Option.some_inj] at hb
        subst hb
        have hle : now + throttleWait minDelay now last ≤
            now + throttleWait minDelay now last + d := by omega
        have hmax := throttleWait_dispatch minDelay
          (now + throttleWait minDelay now last + d) (now + throttleWait minDelay now last) hle
        dsimp only
        refine ⟨?_, ?_, ?_⟩
        · rw [hmax]
          exact Nat.le_max_right _ _
        · rw [hmax]
          exact Nat.le_max_left _ _
        · exact hmax
    · cases hrest : rest with
      | nil =>
        simp [RequestThrottler.processQueueGo]
      | cons d' rest' =>
        rw [hrest] at ih1 ih4
        cases hcase : (RequestThrottler.processQueueGo minDelay
            (now + throttleWait minDelay now last + d)
            (now + throttleWait minDelay now last) (d' :: rest')).1 with
        | nil =>
          rw [hcase] at ih1
          simp at ih1
        | cons b l =>
          rw [hcase] at ih4
          rw [List.getLast?_cons_cons]
          have hsome : (b :: l).getLast?.isSome := by simp
          obtain ⟨x, hx⟩ := Option.isSome_iff_exists.mp hsome
          rw [hx] at ih4 ⊢
          simpa using ih4

/-- Helper: a configuration whose indicator list contains the empty
string judges every text incomplete (every string ends with `""`). -/
theorem openai_isResponseComplete_empty_indicator (s : String) :
    OpenAIService.isResponseComplete ⟨true, true, true, some [""]⟩ s = false := by
  unfold OpenAIService.isResponseComplete
  rw [if_pos]
  simp [indicatorHit, endsWithChars, List.isSuffixOf, List.isPrefixOf]

/-- Helper: the Gemini validator with an empty-string indicator judges
every text incomplete. -/
theorem gemini_isResponseComplete_empty_indicator (s : String) :
    GeminiService.isResponseComplete ⟨true, true, true, some [""]⟩ s = false := by
  unfold GeminiService.isResponseComplete
  rw [if_pos]
  simp [indicatorHit, endsWithChars, List.isSuffixOf, List.isPrefixOf]

/-- Helper: if the accumulated text is judged incomplete after every
append, the OpenAI continuation loop never breaks: it spends all its fuel
and ends in the incomplete-after-maximum-attempts error, having made one
provider call per fuel unit. -/
theorem genGo_incomplete_throughout (v : ResponseValidation)
    (provider : Nat → ProviderResponse) (contents : Nat → String)
    (hc : ∀ n, (provider n).content = some (contents n))
    (hne : ∀ n, contents n ≠ "")
    (hinc : ∀ n, OpenAIService.isResponseComplete v (accumulate contents (n + 1)) = false) :
    ∀ (fuel : Nat) (msgs : List Msg) (trace : List CallRecord),
    1 ≤ trace.length + fuel →
    (OpenAIService.generateWithCompletionGo v provider msgs
        (accumulate contents trace.length) trace fuel).1 = .errIncomplete
    ∧ (OpenAIService.generateWithCompletionGo v provider msgs
        (accumulate contents trace.length) trace fuel).2.length = trace.length + fuel := by
  intro fuel
  induction fuel with
  | zero =>
    intro msgs trace h1
    obtain ⟨m, hm⟩ : ∃ m, trace.length = m + 1 := ⟨trace.length - 1, by omega⟩
    rw [OpenAIService.generateWithCompletionGo]
    refine ⟨?_, by simp⟩
    dsimp only
    rw [hm, OpenAIService.finalCheck, if_neg (by simp [hinc m])]
  | succ fuel ih =>
    intro msgs trace h1
    rw [OpenAIService.generateWithCompletionGo]
    dsimp only
    rw [hc trace.length]
    dsimp only
    rw [if_neg (hne trace.length)]
    have hacc : appendContent (accumulate contents trace.length) (contents trace.length)
        = accumulate contents (trace.length + 1) := rfl
    rw [hacc, hinc trace.length, Bool.and_false, if_neg Bool.false_ne_true]
    have hrec := ih (continueMsgs msgs (accumulate contents (trace.length + 1)))
      (trace ++ [⟨msgs, accumulate contents trace.length⟩])
      (by simp only [List.length_append, List.length_cons, List.length_nil]; omega)
    simp only [List.length_append, List.length_cons, List.length_nil, Nat.zero_add] at hrec
    by_cases hfr : ((provider trace.length).finish_reason == FinishReason.length) = true
    · rw [if_pos hfr]
      exact ⟨hrec.1, by rw [hrec.2]; omega⟩
    · rw [if_neg hfr, if_neg (by simp [hinc trace.length])]
      exact ⟨hrec.1, by rw [hrec.2]; omega⟩

/-- Helper: the Gemini loop under an always-incomplete accumulated text
spends all its fuel and fails with the exhaustion error. -/
theorem geminiGo_incomplete_throughout (v : ResponseValidation) (provider : Nat → String)
    (hinc : ∀ n, GeminiService.isResponseComplete v (accumulate provider (n + 1)) = false) :
    ∀ (fuel calls : Nat), 1 ≤ calls + fuel →
    GeminiService.generateWithModelGo v provider (accumulate provider calls) calls fuel
      = (.errIncomplete, calls + fuel) := by
  intro fuel
  induction fuel with
  | zero =>
    intro calls h1
    obtain ⟨m, rfl⟩ : ∃ m, calls = m + 1 := ⟨calls - 1, by omega⟩
    rw [GeminiService.generateWithModelGo, GeminiService.finalCheck,
      if_neg (by simp [hinc m])]
  | succ fuel ih =>
    intro calls h1
    rw [GeminiService.generateWithModelGo]
    have hacc : appendContent (accumulate provider calls) (provider calls)
        = accumulate provider (calls + 1) := rfl
    rw [hacc, if_neg (by simp [hinc calls])]
    rw [ih (calls + 1) (by omega)]
    have : calls + 1 + fuel = calls + (fuel + 1) := by omega
    rw [this]

/-- C1 (amended): for every run of the continuation loop in which every
provider response is non-empty and the accumulated text is judged
incomplete by the `CompletenessValidator` after every append (as happens
when every response ends with a configured truncation indicator), with
`maxAttempts` at least one the loop makes exactly `maxAttempts` provider
calls and then raises the distinct incomplete-after-maximum-attempts
error, never returning the accumulated text; likewise for the Gemini
service loop. -/
theorem C1_incomplete_accumulated_exhausts_attempts (v vg : ResponseValidation)
    (maxAttempts : Nat) (provider : Nat → ProviderResponse) (contents : Nat → String)
    (msgs : List Msg) (providerG : Nat → String)
    (hmax : 1 ≤ maxAttempts)
    (hc : ∀ n, (provider n).content = some (contents n))
    (hne : ∀ n, contents n ≠ "")
    (hinc : ∀ n, OpenAIService.isResponseComplete v (accumulate contents (n + 1)) = false)
    (hincG : ∀ n, GeminiService.isResponseComplete vg (accumulate providerG (n + 1)) = false) :
    (OpenAIService.generateWithCompletion v maxAttempts provider msgs).1 = .errIncomplete
    ∧ (OpenAIService.generateWithCompletion v maxAttempts provider msgs).2.length = maxAttempts
    ∧ GeminiService.generateWithModel vg maxAttempts providerG = (.errIncomplete, maxAttempts) := by
  have h1 := genGo_incomplete_throughout v provider contents hc hne hinc maxAttempts msgs []
    (by simpa using hmax)
  have h2 := geminiGo_incomplete_throughout vg providerG hincG maxAttempts 0 (by omega)
  refine ⟨?_, ?_, ?_⟩
  · rw [OpenAIService.generateWithCompletion]
    exact h1.1
  · rw [OpenAIService.generateWithCompletion]
    have := h1.2
    simpa using this
  · rw [GeminiService.generateWithModel]
    simpa using h2

/-- Provider of the C1 counterexample: call 1 yields `"\x7b"`, every later
call yields `"\x7d"`, both with finish signal `stop`. -/
def c1Provider : Nat → ProviderResponse :=
  fun n => if n = 0 then ⟨some "\x7b", .stop⟩ else ⟨some "\x7d", .stop⟩

/-- Counterexample for C1 as stated: every provider response of this run
is non-empty and is itself judged incomplete by the validator, and
`maxAttempts = 3`, yet the loop returns the accumulated text after only
two provider calls and raises no error — the validator is consulted on
the accumulated text, not on the individual responses. -/
theorem C1_counterexample :
    c1Provider 0 = ⟨some "\x7b", .stop⟩
    ∧ c1Provider 1 = ⟨some "\x7d", .stop⟩
    ∧ OpenAIService.isResponseComplete defaultResponseValidation "\x7b" = false
    ∧ OpenAIService.isResponseComplete defaultResponseValidation "\x7d" = false
    ∧ (OpenAIService.generateWithCompletion defaultResponseValidation 3 c1Provider
        [⟨"system", "s"⟩, ⟨"user", "u"⟩]).1 = .ok "\x7b\n\x7d"
    ∧ (OpenAIService.generateWithCompletion defaultResponseValidation 3 c1Provider
        [⟨"system", "s"⟩, ⟨"user", "u"⟩]).2.length = 2 := by
  decide

/-- Configuration whose indicator list holds the empty string: every text
is judged incomplete. -/
def vEmptyIndicator : ResponseValidation := ⟨true, true, true, some [""]⟩

/-- Witness for C1: a concrete run whose accumulated text is always
judged incomplete exhausts its three attempts and fails. -/
theorem C1_witness :
    (OpenAIService.generateWithCompletion vEmptyIndicator 3 (fun _ => ⟨some "...", .stop⟩)
      [⟨"system", "s"⟩, ⟨"user", "u"⟩]).1 = .errIncomplete
    ∧ (OpenAIService.generateWithCompletion vEmptyIndicator 3 (fun _ => ⟨some "...", .stop⟩)
      [⟨"system", "s"⟩, ⟨"user", "u"⟩]).2.length = 3
    ∧ GeminiService.generateWithModel vEmptyIndicator 3 (fun _ => "...")
        = (.errIncomplete, 3) :=
  C1_incomplete_accumulated_exhausts_attempts vEmptyIndicator vEmptyIndicator 3
    (fun _ => ⟨some "...", .stop⟩) (fun _ => "...") [⟨"system", "s"⟩, ⟨"user", "u"⟩]
    (fun _ => "...") (by omega) (fun _ => rfl) (fun _ => show "..." ≠ "" by decide)
    (fun _ => openai_isResponseComplete_empty_indicator _)
    (fun _ => gemini_isResponseComplete_empty_indicator _)

/-- Helper: when every provider response carries finish signal `length`
with non-empty content, the loop never breaks early — it spends all its
fuel making one call per unit, and the outcome is decided by the
post-loop validator check on the final accumulated text. -/
theorem genGo_all_length (v : ResponseValidation) (provider : Nat → ProviderResponse)
    (contents : Nat → String)
    (hc : ∀ n, provider n = ⟨some (contents n), .length⟩)
    (hne : ∀ n, contents n ≠ "") :
    ∀ (fuel : Nat) (msgs : List Msg) (trace : List CallRecord),
    (OpenAIService.generateWithCompletionGo v provider msgs
        (accumulate contents trace.length) trace fuel).1
      = OpenAIService.finalCheck v (accumulate contents (trace.length + fuel))
    ∧ (OpenAIService.generateWithCompletionGo v provider msgs
        (accumulate contents trace.length) trace fuel).2.length = trace.length + fuel := by
  intro fuel
  induction fuel with
  | zero =>
    intro msgs trace
    rw [OpenAIService.generateWithCompletionGo]
    exact ⟨by simp, by simp⟩
  | succ fuel ih =>
    intro msgs trace
    rw [OpenAIService.generateWithCompletionGo]
    dsimp only
    rw [hc trace.length]
    dsimp only
    rw [if_neg (hne trace.length)]
    have hacc : appendContent (accumulate contents trace.length) (contents trace.length)
        = accumulate contents (trace.length + 1) := rfl
    rw [hacc]
    rw [show (FinishReason.length == FinishReason.stop) = false from rfl, Bool.false_and,
      if_neg Bool.false_ne_true,
      if_pos (show (FinishReason.length == FinishReason.length) = true from rfl)]
    have hrec := ih (continueMsgs msgs (accumulate contents (trace.length + 1)))
      (trace ++ [⟨msgs, accumulate contents trace.length⟩])
    simp only [List.length_append, List.length_cons, List.length_nil, Nat.zero_add] at hrec
    have harith : trace.length + 1 + fuel = trace.length + (fuel + 1) := by omega
    rw [harith] at hrec
    exact hrec

/-- C2 (amended): a provider finish signal of `length` sends the loop to
another attempt regardless of the validator verdict, so a run in which
every response carries `length` (with non-empty content) makes exactly
`maxAttempts` provider calls; but on exhaustion the loop raises the
distinct error only if the final accumulated text fails the validator —
if it passes every enabled rule, the accumulated text is returned. -/
theorem C2_all_length_final_validator_decides (v : ResponseValidation) (maxAttempts : Nat)
    (provider : Nat → ProviderResponse) (contents : Nat → String) (msgs : List Msg)
    (hc : ∀ n, provider n = ⟨some (contents n), .length⟩)
    (hne : ∀ n, contents n ≠ "") :
    (OpenAIService.generateWithCompletion v maxAttempts provider msgs).1
      = (if OpenAIService.isResponseComplete v (accumulate contents maxAttempts) = true
          then GenResult.ok (accumulate contents maxAttempts)
          else GenResult.errIncomplete)
    ∧ (OpenAIService.generateWithCompletion v maxAttempts provider msgs).2.length
      = maxAttempts := by
  have h := genGo_all_length v provider contents hc hne maxAttempts msgs []
  simp only [List.length_nil, Nat.zero_add] at h
  rw [show accumulate contents 0 = "" from rfl] at h
  rw [OpenAIService.generateWithCompletion]
  exact ⟨by rw [h.1, OpenAIService.finalCheck], h.2⟩

/-- Provider of the C2 counterexample: always non-empty content `"ok"`
with finish signal `length`. -/
def c2Provider : Nat → ProviderResponse := fun _ => ⟨some "ok", .length⟩

/-- Counterexample for C2 as stated: every response carries
`finishSignal = length` and the budget (3) is spent, yet the loop returns
the accumulated text — which passes every enabled validator rule — and
raises no exhaustion error. -/
theorem C2_counterexample :
    c2Provider 0 = ⟨some "ok", .length⟩
    ∧ OpenAIService.isResponseComplete defaultResponseValidation "ok\nok\nok" = true
    ∧ (OpenAIService.generateWithCompletion defaultResponseValidation 3 c2Provider
        [⟨"system", "s"⟩, ⟨"user", "u"⟩]).1 = .ok "ok\nok\nok"
    ∧ (OpenAIService.generateWithCompletion defaultResponseValidation 3 c2Provider
        [⟨"system", "s"⟩, ⟨"user", "u"⟩]).2.length = 3 := by
  decide

/-- Witness for C2: one always-`length` run with a validator-complete
final text returns that text after spending the whole budget. -/
theorem C2_witness :
    (OpenAIService.generateWithCompletion defaultResponseValidation 1 c2Provider
      [⟨"system", "s"⟩, ⟨"user", "u"⟩]).1 = .ok "ok"
    ∧ (OpenAIService.generateWithCompletion defaultResponseValidation 1 c2Provider
      [⟨"system", "s"⟩, ⟨"user", "u"⟩]).2.length = 1 := by
  have h := C2_all_length_final_validator_decides defaultResponseValidation 1 c2Provider
    (fun _ => "ok") [⟨"system", "s"⟩, ⟨"user", "u"⟩] (fun _ => rfl)
    (fun _ => show "ok" ≠ "" by decide)
  refine ⟨?_, h.2⟩
  rw [h.1]
  decide

/-- C3 (amended): if the provider returns finish signal `length` with
non-empty content `A` on the first call and finish signal `stop` with
non-empty content `B` on the second, the accumulated text `A + "\n" + B`
is judged complete, and `maxAttempts` is at least two, then the loop
returns exactly the newline-joined concatenation after exactly two
provider calls, never overwriting prior text. -/
theorem C3_length_then_stop_concatenates (v : ResponseValidation) (maxAttempts : Nat)
    (provider : Nat → ProviderResponse) (A B : String) (msgs : List Msg)
    (hmax : 2 ≤ maxAttempts)
    (h0 : provider 0 = ⟨some A, .length⟩)
    (h1 : provider 1 = ⟨some B, .stop⟩)
    (hA : A ≠ "") (hB : B ≠ "")
    (hdone : OpenAIService.isResponseComplete v (A ++ "\n" ++ B) = true) :
    OpenAIService.generateWithCompletion v maxAttempts provider msgs
      = (.ok (A ++ "\n" ++ B), [⟨msgs, ""⟩, ⟨continueMsgs msgs A, A⟩]) := by
  obtain ⟨f, rfl⟩ : ∃ f, maxAttempts = f + 2 := ⟨maxAttempts - 2, by omega⟩
  rw [OpenAIService.generateWithCompletion, OpenAIService.generateWithCompletionGo]
  dsimp only
  simp only [List.length_nil]
  simp only [h0]
  rw [if_neg hA]
  rw [show appendContent "" A = A from by rw [appendContent, if_pos rfl]]
  rw [show (FinishReason.length == FinishReason.stop) = false from rfl, Bool.false_and,
    if_neg Bool.false_ne_true,
    if_pos (show (FinishReason.length == FinishReason.length) = true from rfl)]
  rw [OpenAIService.generateWithCompletionGo]
  dsimp only
  simp only [List.nil_append, List.length_cons, List.length_nil, Nat.zero_add]
  simp only [h1]
  rw [if_neg hB]
  rw [show appendContent A B = A ++ "\n" ++ B from by rw [appendContent, if_neg hA]]
  rw [show (FinishReason.stop == FinishReason.stop) = true from rfl, Bool.true_and,
    if_pos hdone]
  rw [OpenAIService.finalCheck, if_pos hdone]
  simp

/-- Provider of the C3 counterexample: `"\begin{x}"` with `length`, then
`"done"` with `stop`. -/
def c3Provider : Nat → ProviderResponse :=
  fun n => if n = 0 then ⟨some "\\begin\x7bx\x7d", .length⟩ else ⟨some "done", .stop⟩

/-- Counterexample for C3 as stated: the second response `"done"` is
validator-complete on its own, yet the loop does not return after two
calls — the validator is applied to the accumulated text, whose LaTeX
environments stay unbalanced, so the run spends all three attempts and
fails. -/
theorem C3_counterexample :
    c3Provider 0 = ⟨some "\\begin\x7bx\x7d", .length⟩
    ∧ c3Provider 1 = ⟨some "done", .stop⟩
    ∧ OpenAIService.isResponseComplete defaultResponseValidation "done" = true
    ∧ (OpenAIService.generateWithCompletion defaultResponseValidation 3 c3Provider
        [⟨"system", "s"⟩, ⟨"user", "u"⟩]).1 = .errIncomplete
    ∧ (OpenAIService.generateWithCompletion defaultResponseValidation 3 c3Provider
        [⟨"system", "s"⟩, ⟨"user", "u"⟩]).2.length = 3 := by
  decide

/-- Provider of the C3 witness: `"Part 1"` with `length`, then
`"Part 2"` with `stop`. -/
def c3GoodProvider : Nat → ProviderResponse :=
  fun n => if n = 0 then ⟨some "Part 1", .length⟩ else ⟨some "Part 2", .stop⟩

/-- Witness for C3: the concrete two-call scenario returns the
newline-joined concatenation. -/
theorem C3_witness :
    OpenAIService.generateWithCompletion defaultResponseValidation 3 c3GoodProvider
      [⟨"system", "s"⟩, ⟨"user", "u"⟩]
    = (.ok ("Part 1" ++ "\n" ++ "Part 2"),
       [⟨[⟨"system", "s"⟩, ⟨"user", "u"⟩], ""⟩,
        ⟨continueMsgs [⟨"system", "s"⟩, ⟨"user", "u"⟩] "Part 1", "Part 1"⟩]) :=
  C3_length_then_stop_concatenates defaultResponseValidation 3 c3GoodProvider
    "Part 1" "Part 2" [⟨"system", "s"⟩, ⟨"user", "u"⟩] (by omega) (by decide) (by decide)
    (by decide) (by decide) (by decide)

/-- Helper: the trace grown by the OpenAI continuation loop from state
`(msgs, content, trace)` appends first the record of the current call and
then only continuation records: their message list is the preserved first
message followed by exactly one user message
`Continue from: <accumulated text before the call>`. -/
theorem genGo_trace_shape (v : ResponseValidation) (provider : Nat → ProviderResponse) :
    ∀ (fuel : Nat) (msgs : List Msg) (content : String) (trace : List CallRecord),
    ∃ rest, (OpenAIService.generateWithCompletionGo v provider msgs content trace fuel).2
        = trace ++ rest
    ∧ (rest = [] ∨ ∃ rest2, rest = ⟨msgs, content⟩ :: rest2
        ∧ ∀ r ∈ rest2,
          r.msgs = [msgs.headD msgDefault, ⟨"user", "Continue from: " ++ r.accBefore⟩]) := by
  intro fuel
  induction fuel with
  | zero =>
    intro msgs content trace
    rw [OpenAIService.generateWithCompletionGo]
    exact ⟨[], by simp, Or.inl rfl⟩
  | succ fuel ih =>
    intro msgs content trace
    rw [OpenAIService.generateWithCompletionGo]
    dsimp only
    have hstep : ∀ nc : String, ∃ rest2,
        (OpenAIService.generateWithCompletionGo v provider
          (continueMsgs msgs (appendContent content nc)) (appendContent content nc)
          (trace ++ [⟨msgs, content⟩]) fuel).2 = trace ++ (⟨msgs, content⟩ :: rest2)
        ∧ ∀ r ∈ rest2,
          r.msgs = [msgs.headD msgDefault, ⟨"user", "Continue from: " ++ r.accBefore⟩] := by
      intro nc
      obtain ⟨rest2, hr2, hshape⟩ := ih (continueMsgs msgs (appendContent content nc))
        (appendContent content nc) (trace ++ [⟨msgs, content⟩])
      rcases hshape with rfl | ⟨rest3, rfl, hall⟩
      · exact ⟨[], by simpa using hr2, by simp⟩
      · refine ⟨⟨continueMsgs msgs (appendContent content nc), appendContent content nc⟩ :: rest3,
          by simpa [List.append_assoc] using hr2, ?_⟩
        intro r hr
        rcases List.mem_cons.mp hr with rfl | hr2
        · rfl
        · have := hall r hr2
          simpa [continueMsgs] using this
    cases hcont : (provider trace.length).content with
    | none =>
      exact ⟨[⟨msgs, content⟩], rfl, Or.inr ⟨[], rfl, by simp⟩⟩
    | some nc =>
      dsimp only
      by_cases hnc : nc = ""
      · rw [if_pos hnc]
        exact ⟨[⟨msgs, content⟩], rfl, Or.inr ⟨[], rfl, by simp⟩⟩
      · rw [if_neg hnc]
        by_cases hb1 : ((provider trace.length).finish_reason == FinishReason.stop
            && OpenAIService.isResponseComplete v (appendContent content nc)) = true
        · rw [if_pos hb1]
          exact ⟨[⟨msgs, content⟩], rfl, Or.inr ⟨[], rfl, by simp⟩⟩
        · rw [if_neg hb1]
          by_cases hb2 : ((provider trace.length).finish_reason == FinishReason.length) = true
          · rw [if_pos hb2]
            obtain ⟨rest2, hr2, hall⟩ := hstep nc
            exact ⟨⟨msgs, content⟩ :: rest2, hr2, Or.inr ⟨rest2, rfl, hall⟩⟩
          · rw [if_neg hb2]
            by_cases hb3 : OpenAIService.isResponseComplete v (appendContent content nc) = true
            · rw [if_pos hb3]
              exact ⟨[⟨msgs, content⟩], rfl, Or.inr ⟨[], rfl, by simp⟩⟩
            · rw [if_neg hb3]
              obtain ⟨rest2, hr2, hall⟩ := hstep nc
              exact ⟨⟨msgs, content⟩ :: rest2, hr2, Or.inr ⟨rest2, rfl, hall⟩⟩

/-- Helper: every record of the trace grown by the
`GeminiOpenAIService` loop either was in the starting trace or sends the
original message list verbatim (first call) or the rewritten two-message
list (continuation calls). -/
theorem geminiOpenAIGo_trace_shape (v : ResponseValidation)
    (provider : Nat → List Msg → String) (msgs : List Msg) :
    ∀ (fuel : Nat) (content : String) (trace : List CallRecord),
    ∀ r ∈ (GeminiOpenAIService.generateWithModelGo v provider msgs content trace fuel).2,
      r ∈ trace
      ∨ ((r.accBefore = "" → r.msgs = msgs)
        ∧ (r.accBefore ≠ "" →
          r.msgs = [msgs.headD msgDefault, ⟨"user", "Continue from: " ++ r.accBefore⟩])) := by
  intro fuel
  induction fuel with
  | zero =>
    intro content trace r hr
    rw [GeminiOpenAIService.generateWithModelGo] at hr
    exact Or.inl hr
  | succ fuel ih =>
    intro content trace r hr
    rw [GeminiOpenAIService.generateWithModelGo] at hr
    dsimp only at hr
    by_cases hct : content = ""
    · rw [if_pos hct] at hr
      have hnewrec : r ∈ trace ++ [(⟨msgs, content⟩ : CallRecord)] →
          r ∈ trace
          ∨ ((r.accBefore = "" → r.msgs = msgs)
            ∧ (r.accBefore ≠ "" →
              r.msgs = [msgs.headD msgDefault, ⟨"user", "Continue from: " ++ r.accBefore⟩])) := by
        intro hmem
        rcases List.mem_append.mp hmem with h | h
        · exact Or.inl h
        · right
          have hr2 : r = ⟨msgs, content⟩ := by simpa using h
          subst hr2
          exact ⟨fun _ => rfl, fun h0 => absurd hct h0⟩
      split at hr
      · exact hnewrec hr
      · split at hr
        · exact hnewrec hr
        · split at hr
          · rcases ih _ _ r hr with h | h
            · exact hnewrec h
            · exact Or.inr h
          · exact hnewrec hr
    · rw [if_neg hct] at hr
      have hnewrec : r ∈ trace ++
          [(⟨[msgs.headD msgDefault, ⟨"user", "Continue from: " ++ content⟩],
            content⟩ : CallRecord)] →
          r ∈ trace
          ∨ ((r.accBefore = "" → r.msgs = msgs)
            ∧ (r.accBefore ≠ "" →
              r.msgs = [msgs.headD msgDefault, ⟨"user", "Continue from: " ++ r.accBefore⟩])) := by
        intro hmem
        rcases List.mem_append.mp hmem with h | h
        · exact Or.inl h
        · right
          have hr2 : r = ⟨[msgs.headD msgDefault, ⟨"user", "Continue from: " ++ content⟩],
              content⟩ := by
            simpa using h
          subst hr2
          exact ⟨fun h0 => absurd h0 hct, fun _ => rfl⟩
      split at hr
      · exact hnewrec hr
      · split at hr
        · exact hnewrec hr
        · split at hr
          · rcases ih _ _ r hr with h | h
            · exact hnewrec h
            · exact Or.inr h
          · exact hnewrec hr

/-- C8: on every continuation call after the first, the message list sent
by the OpenAI loop is exactly the preserved first (system) message of the
original list followed by one user message
`Continue from: <accumulated text>` — no other original message survives
the rewrite; and the `GeminiOpenAIService` loop sends the original list
on the first call and the same two-message rewrite on every continuation
call. -/
theorem C8_continuation_preserves_head_and_rewrites_user (v : ResponseValidation)
    (maxAttempts : Nat) (provider : Nat → ProviderResponse)
    (providerG : Nat → List Msg → String) (msgs : List Msg) (hm : msgs ≠ []) :
    (∀ r ∈ (OpenAIService.generateWithCompletion v maxAttempts provider msgs).2.tail,
      r.msgs = [msgs.head hm, ⟨"user", "Continue from: " ++ r.accBefore⟩])
    ∧ (∀ r ∈ (GeminiOpenAIService.generateWithModel v maxAttempts providerG msgs).2,
      (r.accBefore = "" → r.msgs = msgs)
      ∧ (r.accBefore ≠ "" →
        r.msgs = [msgs.head hm, ⟨"user", "Continue from: " ++ r.accBefore⟩])) := by
  have hhd : msgs.headD msgDefault = msgs.head hm := by
    cases msgs with
    | nil => exact absurd rfl hm
    | cons a l => rfl
  constructor
  · intro r hr
    obtain ⟨rest, hr2, hshape⟩ := genGo_trace_shape v provider maxAttempts msgs "" []
    rw [OpenAIService.generateWithCompletion] at hr
    rw [hr2] at hr
    rcases hshape with rfl | ⟨rest2, rfl, hall⟩
    · simp at hr
    · simp only [List.nil_append, List.tail_cons] at hr
      rw [← hhd]
      exact hall r hr
  · intro r hr
    rw [GeminiOpenAIService.generateWithModel] at hr
    have h := geminiOpenAIGo_trace_shape v providerG msgs maxAttempts "" [] r hr
    rcases h with h | h
    · simp at h
    · rw [hhd] at h
      exact h

/-- Provider of the C8 witness: `"Part 1"` with `length`, then
`"Part 2"` with `stop`. -/
def c8Provider : Nat → ProviderResponse :=
  fun n => if n = 0 then ⟨some "Part 1", .length⟩ else ⟨some "Part 2", .stop⟩

/-- Second call record of the C8 witness run. -/
def c8Rec : CallRecord := ⟨[⟨"system", "s"⟩, ⟨"user", "Continue from: Part 1"⟩], "Part 1"⟩

/-- Witness for C8: in a concrete two-call run the second call record
sends the preserved system message plus the continuation user message. -/
theorem C8_witness :
    c8Rec ∈ (OpenAIService.generateWithCompletion defaultResponseValidation 3 c8Provider
      [⟨"system", "s"⟩, ⟨"user", "u"⟩]).2.tail
    ∧ c8Rec.msgs = [⟨"system", "s"⟩, ⟨"user", "Continue from: " ++ c8Rec.accBefore⟩] := by
  refine ⟨by decide, ?_⟩
  have h := (C8_continuation_preserves_head_and_rewrites_user defaultResponseValidation 3
    c8Provider (fun _ _ => "x") [⟨"system", "s"⟩, ⟨"user", "u"⟩] (by decide)).1
  exact h c8Rec (by decide)

end LectureNotesSDK

section ValidatorSanity

open LectureNotesSDK

example : OpenAIService.isResponseComplete defaultResponseValidation "hello" = true := by decide

example : OpenAIService.isResponseComplete defaultResponseValidation "hello..." = false := by decide

example : OpenAIService.isResponseComplete defaultResponseValidation "\x7b" = false := by decide

example : GeminiService.isResponseComplete defaultResponseValidation "\x7b" = true := by decide

example : countMatches "```" "`````" = 1 := by decide

example : countMatches "\\begin\x7b" "\\begin\x7babc\x7d" = 1 := by decide

end ValidatorSanity
